import Mathlib

/-!
Verification of the `rag_legislacion` ingestion pipeline and chat front end.

The Python sources (`src/populate_database.py`, `app.py`, `src/config.py`)
are shallowly embedded below: Python dicts become association lists
(`Metadata`), `langchain` documents and chunks become structures, the
Pinecone index and the OpenAI embedder become abstract parameters, and
randomness (`uuid.uuid4`) becomes an explicit token supply.
-/

namespace RagLegislacion

/-! ## Python dict model

A Python `dict[str, str]` is modelled as an association list with
insertion-order semantics: assignment to an existing key replaces the value
in place, assignment to a fresh key appends it at the end.  Lookup returns
the first (unique) binding. -/

abbrev Metadata := List (String × String)

def mdGet? (m : Metadata) (k : String) : Option String :=
  match m with
  | [] => none
  | (k₁, v) :: rest => if k₁ = k then some v else mdGet? rest k

def mdGetD (m : Metadata) (k d : String) : String :=
  (mdGet? m k).getD d

def mdSet (m : Metadata) (k v : String) : Metadata :=
  match m with
  | [] => [(k, v)]
  | (k₁, v₁) :: rest => if k₁ = k then (k, v) :: rest else (k₁, v₁) :: mdSet rest k v

theorem mdGet?_mdSet_self (m : Metadata) (k v : String) :
    mdGet? (mdSet m k v) k = some v := by
  induction m with
  | nil => simp [mdSet, mdGet?]
  | cons p rest ih =>
    obtain ⟨k₁, v₁⟩ := p
    by_cases h : k₁ = k
    · simp [mdSet, h, mdGet?]
    · simp [mdSet, h, mdGet?, ih]

theorem mdGet?_mdSet_ne (m : Metadata) (k k₁ v : String) (hk : k₁ ≠ k) :
    mdGet? (mdSet m k v) k₁ = mdGet? m k₁ := by
  have hk₂ : k ≠ k₁ := fun h => hk h.symm
  induction m with
  | nil => simp [mdSet, mdGet?, hk₂]
  | cons p rest ih =>
    obtain ⟨k₂, v₂⟩ := p
    by_cases h : k₂ = k
    · subst h
      simp [mdSet, mdGet?, hk₂]
    · by_cases h₂ : k₂ = k₁ <;> simp [mdSet, h, mdGet?, h₂, ih, hk]

/-! ## Documents and the deduplication filter

`load_new_documents` (populate_database.py, lines 120-140): the loader
itself (`PyPDFDirectoryLoader`) is external; the embedded function receives
the loaded documents and keeps, in order, exactly those whose `source`
metadata is not in `existing_files`, tagging each kept document with a
normalized filename and the category label.  `normalize_filename` lives in
`src/utils/normalize_filename.py`, which is not part of the verified
sources, so it is an abstract parameter `nf`. -/

structure Doc where
  metadata : Metadata
  page_content : String
deriving DecidableEq

/-- `doc.metadata.get("source", "")`. -/
def docSource (d : Doc) : String := mdGetD d.metadata "source" ""

/-- `os.path.basename` on a posix path: the component after the last slash. -/
def pyBasename (p : String) : String := List.getLastD (p.splitOn "/") ""

/-- The in-place metadata mutation performed on each kept document:
`doc.metadata["filename"] = normalize_filename(basename(source))` and
`doc.metadata["doc_type"] = doc_type`. -/
def tagDoc (nf : String → String) (doc_type : String) (d : Doc) : Doc :=
  { d with
    metadata :=
      mdSet (mdSet d.metadata "filename" (nf (pyBasename (docSource d)))) "doc_type" doc_type }

def load_new_documents (nf : String → String) (doc_type : String)
    (existing_files : Finset String) : List Doc → List Doc
  | [] => []
  | d :: rest =>
    if docSource d ∈ existing_files then
      load_new_documents nf doc_type existing_files rest
    else
      tagDoc nf doc_type d :: load_new_documents nf doc_type existing_files rest

theorem docSource_tagDoc (nf : String → String) (doc_type : String) (d : Doc) :
    docSource (tagDoc nf doc_type d) = docSource d := by
  simp [docSource, tagDoc, mdGetD]
  rw [mdGet?_mdSet_ne _ _ _ _ (by decide), mdGet?_mdSet_ne _ _ _ _ (by decide)]

/-- C1: the dedup filter returns exactly the documents whose source path is
absent from the existing set, in input order (they are returned after the
in-place `filename` / `doc_type` tagging, which leaves `source` untouched),
so on sources it computes the order-preserving set difference. -/
theorem load_new_documents_filters_existing (nf : String → String) (doc_type : String)
    (existing_files : Finset String) (documents : List Doc) :
    load_new_documents nf doc_type existing_files documents =
      (documents.filter (fun d => !decide (docSource d ∈ existing_files))).map
        (tagDoc nf doc_type) ∧
    (load_new_documents nf doc_type existing_files documents).map docSource =
      (documents.map docSource).filter (fun s => !decide (s ∈ existing_files)) := by
  constructor
  · induction documents with
    | nil => simp [load_new_documents]
    | cons d rest ih =>
      by_cases h : docSource d ∈ existing_files <;>
        simp [load_new_documents, h, List.filter, ih]
  · induction documents with
    | nil => simp [load_new_documents]
    | cons d rest ih =>
      by_cases h : docSource d ∈ existing_files <;>
        simp [load_new_documents, h, List.filter, ih, docSource_tagDoc]

/-! ## The ASCII sanitizer

`to_ascii_id` (populate_database.py, lines 71-83) runs four passes over the
text: `unicodedata.normalize("NFKD", ...)`, removal of non-ASCII
codepoints, removal of characters outside `\w`, `\s`, `-`, removal of the
six bracket characters, and replacement of each maximal whitespace run by a
single underscore.  NFKD is an external Unicode algorithm, embedded as a
parameter `nfkd`; the only fact used about it is that it fixes pure-ASCII
text, which holds of the real NFKD because ASCII codepoints have no
decomposition and are never reordered.  Text is handled as `List Char`
(Python `str` is a sequence of codepoints). -/

/-- Python regex `\s` restricted to ASCII codepoints: the characters of
codepoints 9-13, 28-31 and 32 (the Unicode whitespace set intersected with
ASCII, which is what `\s` matches after the non-ASCII pass). -/
def isPySpace (c : Char) : Bool :=
  c.toNat = 32 || (9 ≤ c.toNat && c.toNat ≤ 13) || (28 ≤ c.toNat && c.toNat ≤ 31)

/-- Python regex `\w` restricted to ASCII codepoints: `[A-Za-z0-9_]` by
codepoint range. -/
def isPyWord (c : Char) : Bool :=
  (65 ≤ c.toNat && c.toNat ≤ 90) || (97 ≤ c.toNat && c.toNat ≤ 122) ||
    (48 ≤ c.toNat && c.toNat ≤ 57) || c.toNat = 95

/-- The six bracket characters of the third regex, by codepoint. -/
def isBracketChar (c : Char) : Bool :=
  c.toNat = 40 || c.toNat = 41 || c.toNat = 91 || c.toNat = 93 ||
    c.toNat = 123 || c.toNat = 125

/-- `re.sub(r"[^\x00-\x7F]+", "", text)`. -/
def removeNonAscii (l : List Char) : List Char :=
  l.filter (fun c => c.toNat ≤ 127)

/-- `re.sub(r"[^\w\s-]", "", text)` (the input is ASCII-only at this point,
so the ASCII readings of `\w`, `\s` apply). -/
def removeSpecial (l : List Char) : List Char :=
  l.filter (fun c => isPyWord c || isPySpace c || c = '-')

/-- `re.sub(r"[\(\)\[\]\{\}]", "", text)`. -/
def removeBrackets (l : List Char) : List Char :=
  l.filter (fun c => !isBracketChar c)

/-- `re.sub(r"\s+", "_", text)`: the flag records whether the previous
character was whitespace, so each maximal whitespace run yields exactly one
underscore. -/
def collapseWsAux : Bool → List Char → List Char
  | _, [] => []
  | prevWs, c :: rest =>
    if isPySpace c then
      if prevWs then collapseWsAux true rest
      else '_' :: collapseWsAux true rest
    else c :: collapseWsAux false rest

def collapseWs (l : List Char) : List Char := collapseWsAux false l

def to_ascii_id (nfkd : List Char → List Char) (text : List Char) : List Char :=
  collapseWs (removeBrackets (removeSpecial (removeNonAscii (nfkd text))))

/-- Characters that can survive the sanitizer: ASCII word characters and
the dash. -/
def isSanOk (c : Char) : Bool := isPyWord c || c = '-'

theorem isSanOk_toNat {c : Char} (h : isSanOk c = true) :
    (65 ≤ c.toNat ∧ c.toNat ≤ 90) ∨ (97 ≤ c.toNat ∧ c.toNat ≤ 122) ∨
      (48 ≤ c.toNat ∧ c.toNat ≤ 57) ∨ c.toNat = 95 ∨ c.toNat = 45 := by
  simp only [isSanOk, isPyWord, Bool.or_eq_true, Bool.and_eq_true,
    decide_eq_true_eq] at h
  rcases h with (((h | h) | h) | h) | h
  · exact Or.inl h
  · exact Or.inr (Or.inl h)
  · exact Or.inr (Or.inr (Or.inl h))
  · exact Or.inr (Or.inr (Or.inr (Or.inl h)))
  · subst h
    exact Or.inr (Or.inr (Or.inr (Or.inr rfl)))

theorem isSanOk_not_space {c : Char} (h : isSanOk c = true) : isPySpace c = false := by
  have h₂ := isSanOk_toNat h
  simp only [isPySpace, Bool.or_eq_false_iff, Bool.and_eq_false_iff,
    decide_eq_false_iff_not, not_le]
  omega

theorem isSanOk_not_bracket {c : Char} (h : isSanOk c = true) : isBracketChar c = false := by
  have h₂ := isSanOk_toNat h
  simp only [isBracketChar, Bool.or_eq_false_iff, decide_eq_false_iff_not]
  omega

theorem isSanOk_ascii {c : Char} (h : isSanOk c = true) : c.toNat ≤ 127 := by
  have h₂ := isSanOk_toNat h
  omega

theorem collapseWsAux_mem {c : Char} :
    ∀ (b : Bool) (l : List Char), c ∈ collapseWsAux b l →
      c = '_' ∨ (c ∈ l ∧ isPySpace c = false)
  | _, [], h => by simp [collapseWsAux] at h
  | b, a :: rest, h => by
    by_cases ha : isPySpace a = true
    · by_cases hb : b = true
      · subst hb
        simp [collapseWsAux, ha] at h
        rcases collapseWsAux_mem true rest h with h₁ | h₁
        · exact Or.inl h₁
        · exact Or.inr ⟨List.mem_cons_of_mem _ h₁.1, h₁.2⟩
      · have hb₂ : b = false := Bool.eq_false_iff.mpr hb
        subst hb₂
        simp only [collapseWsAux, ha, if_true] at h
        rcases List.mem_cons.mp h with h₁ | h₁
        · exact Or.inl h₁
        · rcases collapseWsAux_mem true rest h₁ with h₂ | h₂
          · exact Or.inl h₂
          · exact Or.inr ⟨List.mem_cons_of_mem _ h₂.1, h₂.2⟩
    · have ha₂ : isPySpace a = false := Bool.eq_false_iff.mpr ha
      simp only [collapseWsAux, ha₂, Bool.false_eq_true, if_false] at h
      rcases List.mem_cons.mp h with h₁ | h₁
      · subst h₁
        exact Or.inr ⟨List.mem_cons_self _ _, ha₂⟩
      · rcases collapseWsAux_mem false rest h₁ with h₂ | h₂
        · exact Or.inl h₂
        · exact Or.inr ⟨List.mem_cons_of_mem _ h₂.1, h₂.2⟩

/-- Every character of the sanitizer's output is an ASCII word character
or a dash. -/
theorem to_ascii_id_chars (nfkd : List Char → List Char) (text : List Char) :
    ∀ c ∈ to_ascii_id nfkd text, isSanOk c = true := by
  intro c hc
  rcases collapseWsAux_mem false _ hc with h | h
  · subst h; decide
  · obtain ⟨hmem, hns⟩ := h
    have h₁ := List.of_mem_filter hmem
    have h₂ := List.of_mem_filter (List.mem_of_mem_filter hmem)
    simp only [Bool.or_eq_true_iff] at h₂
    rcases h₂ with (hw | hs) | hd
    · simp [isSanOk, hw]
    · rw [hns] at hs; exact absurd hs (by simp)
    · simp [isSanOk, hd]

theorem collapseWsAux_no_space (l : List Char) (hl : ∀ c ∈ l, isPySpace c = false) :
    ∀ b, collapseWsAux b l = l := by
  induction l with
  | nil => intro b; simp [collapseWsAux]
  | cons a rest ih =>
    intro b
    have ha : isPySpace a = false := hl a (List.mem_cons_self _ _)
    simp only [collapseWsAux, ha, Bool.false_eq_true, if_false]
    rw [ih (fun c hc => hl c (List.mem_cons_of_mem _ hc))]

/-- C2: `to_ascii_id` is idempotent, and its output contains no whitespace,
no bracket character and no non-ASCII codepoint — assuming only that the
external NFKD normalization fixes ASCII-only text, as the real one does. -/
theorem to_ascii_id_idempotent_ascii (nfkd : List Char → List Char)
    (hn : ∀ l : List Char, (∀ c ∈ l, c.toNat ≤ 127) → nfkd l = l) (text : List Char) :
    to_ascii_id nfkd (to_ascii_id nfkd text) = to_ascii_id nfkd text ∧
    ∀ c ∈ to_ascii_id nfkd text,
      isPySpace c = false ∧ isBracketChar c = false ∧ c.toNat ≤ 127 := by
  have hok := to_ascii_id_chars nfkd text
  constructor
  · have h₁ : nfkd (to_ascii_id nfkd text) = to_ascii_id nfkd text :=
      hn _ (fun c hc => isSanOk_ascii (hok c hc))
    have h₂ : removeNonAscii (to_ascii_id nfkd text) = to_ascii_id nfkd text :=
      List.filter_eq_self.mpr (fun c hc => by
        simp only [decide_eq_true_eq]
        exact isSanOk_ascii (hok c hc))
    have h₃ : removeSpecial (to_ascii_id nfkd text) = to_ascii_id nfkd text :=
      List.filter_eq_self.mpr (fun c hc => by
        rcases Bool.or_eq_true_iff.mp (hok c hc) with h | h
        · simp [h]
        · simp [h])
    have h₄ : removeBrackets (to_ascii_id nfkd text) = to_ascii_id nfkd text :=
      List.filter_eq_self.mpr (fun c hc => by
        simp [isSanOk_not_bracket (hok c hc)])
    have h₅ : collapseWs (to_ascii_id nfkd text) = to_ascii_id nfkd text :=
      collapseWsAux_no_space _ (fun c hc => isSanOk_not_space (hok c hc)) false
    calc to_ascii_id nfkd (to_ascii_id nfkd text)
        = collapseWs (removeBrackets (removeSpecial (removeNonAscii
            (nfkd (to_ascii_id nfkd text))))) := rfl
      _ = to_ascii_id nfkd text := by rw [h₁, h₂, h₃, h₄, h₅]
  · intro c hc
    exact ⟨isSanOk_not_space (hok c hc), isSanOk_not_bracket (hok c hc),
      isSanOk_ascii (hok c hc)⟩

/-- Witness for C2 at the identity NFKD (ASCII-fixing holds trivially) and
a concrete accented, bracketed input. -/
theorem to_ascii_id_idempotent_ascii_instance :
    to_ascii_id (fun l => l) (to_ascii_id (fun l => l) "Ley Orgánica (2024) [v2]".data) =
      to_ascii_id (fun l => l) "Ley Orgánica (2024) [v2]".data ∧
    ∀ c ∈ to_ascii_id (fun l => l) "Ley Orgánica (2024) [v2]".data,
      isPySpace c = false ∧ isBracketChar c = false ∧ c.toNat ≤ 127 :=
  to_ascii_id_idempotent_ascii (fun l => l) (fun _ _ => rfl) "Ley Orgánica (2024) [v2]".data

/-! ## Chunk processing: ids, provenance and composite text

`add_to_pinecone` (populate_database.py, lines 166-235).  The per-chunk
loop reads `filename`, `page_label`, `doc_type` (with the source's
defaults), draws a random token (`str(uuid.uuid4())[:8]`, embedded as an
explicit supply `tok : Nat → String`, one token per loop iteration), and
writes `id`, `created_at`, `original_filename`, `text` into the chunk's
metadata before replacing `page_content` with the composite text. -/

structure Chunk where
  metadata : Metadata
  page_content : String
deriving DecidableEq

def sanitizeStr (nfkd : List Char → List Char) (s : String) : String :=
  String.mk (to_ascii_id nfkd s.data)

/-- `chunk.metadata.get("doc_type", "unknown")`. -/
def chunkCat (c : Chunk) : String := mdGetD c.metadata "doc_type" "unknown"

/-- `chunk.metadata.get("filename", "unknown")` (bound to `source`). -/
def chunkFn (c : Chunk) : String := mdGetD c.metadata "filename" "unknown"

/-- `chunk.metadata.get("page_label", "0")`. -/
def chunkPg (c : Chunk) : String := mdGetD c.metadata "page_label" "0"

/-- The id up to and including its last colon. -/
def idStem (nfkd : List Char → List Char) (c : Chunk) : String :=
  sanitizeStr nfkd (chunkCat c) ++ ":" ++ sanitizeStr nfkd (chunkFn c) ++ ":" ++
    chunkPg c ++ ":"

/-- `chunk_id = f"{ascii_doc_type}:{ascii_source}:{page}:{unique_id}"`. -/
def chunkIdOf (nfkd : List Char → List Char) (tok : String) (c : Chunk) : String :=
  idStem nfkd c ++ tok

/-- `full_text = f"Tipo: {doc_type}. Archivo: {source}. Página: {page}. {chunk.page_content}"`. -/
def fullTextOf (c : Chunk) : String :=
  "Tipo: " ++ chunkCat c ++ ". Archivo: " ++ chunkFn c ++ ". Página: " ++
    chunkPg c ++ ". " ++ c.page_content

/-- One iteration of the per-chunk loop of `add_to_pinecone`. -/
def processChunk (nfkd : List Char → List Char) (timestamp tok : String) (c : Chunk) :
    Chunk :=
  { metadata :=
      mdSet (mdSet (mdSet (mdSet c.metadata "id" (chunkIdOf nfkd tok c))
        "created_at" timestamp) "original_filename" (chunkFn c)) "text" (fullTextOf c),
    page_content := fullTextOf c }

def processChunksFrom (nfkd : List Char → List Char) (ts : String) (tok : Nat → String) :
    Nat → List Chunk → List Chunk
  | _, [] => []
  | i, c :: rest => processChunk nfkd ts (tok i) c :: processChunksFrom nfkd ts tok (i + 1) rest

/-- The whole per-chunk loop; iteration `i` consumes token `tok i`. -/
def processChunks (nfkd : List Char → List Char) (ts : String) (tok : Nat → String)
    (chunks : List Chunk) : List Chunk :=
  processChunksFrom nfkd ts tok 0 chunks

/-- A prepared Pinecone record `{"id": ..., "values": ..., "metadata": ...}`. -/
structure PineRecord (V : Type) where
  id : String
  values : V
  metadata : Metadata

/-- `texts = [chunk.metadata["text"] for chunk in chunks]`. -/
def upsertTexts (chunks : List Chunk) : List String :=
  chunks.map (fun c => mdGetD c.metadata "text" "")

/-- `vectors_with_ids`: the embedder (`embed_documents`, an ordered pure
map per the embedding client contract) is applied to each chunk's `text`
field, and the record carries the chunk's `id` and full metadata. -/
def buildRecords {V : Type} (embed : String → V) (chunks : List Chunk) :
    List (PineRecord V) :=
  chunks.map (fun c =>
    ⟨mdGetD c.metadata "id" "", embed (mdGetD c.metadata "text" ""), c.metadata⟩)

theorem processChunk_id (nfkd : List Char → List Char) (ts tok : String) (c : Chunk) :
    mdGet? (processChunk nfkd ts tok c).metadata "id" = some (chunkIdOf nfkd tok c) := by
  simp only [processChunk]
  rw [mdGet?_mdSet_ne _ _ _ _ (by decide), mdGet?_mdSet_ne _ _ _ _ (by decide),
    mdGet?_mdSet_ne _ _ _ _ (by decide), mdGet?_mdSet_self]

theorem processChunk_text (nfkd : List Char → List Char) (ts tok : String) (c : Chunk) :
    mdGet? (processChunk nfkd ts tok c).metadata "text" = some (fullTextOf c) := by
  simp only [processChunk]
  rw [mdGet?_mdSet_self]

theorem processChunksFrom_getElem? (nfkd : List Char → List Char) (ts : String)
    (tok : Nat → String) :
    ∀ (l : List Chunk) (i k : Nat),
      (processChunksFrom nfkd ts tok i l)[k]? =
        Option.map (processChunk nfkd ts (tok (i + k))) l[k]?
  | [], i, k => by simp [processChunksFrom]
  | c :: rest, i, 0 => by simp [processChunksFrom]
  | c :: rest, i, k + 1 => by
    simp only [processChunksFrom, List.getElem?_cons_succ]
    rw [processChunksFrom_getElem? nfkd ts tok rest (i + 1) k]
    have h : i + 1 + k = i + (k + 1) := by omega
    rw [h]

theorem str_append_left_cancel {s t u : String} (h : s ++ t = s ++ u) : t = u := by
  have h₂ : (s ++ t).data = (s ++ u).data := congrArg String.data h
  rw [String.data_append, String.data_append] at h₂
  exact congrArg String.mk (List.append_cancel_left h₂)

/-- C3: within one run of `add_to_pinecone`, two distinct chunks sharing
identical category, filename and page label still receive different ids —
given the model of `uuid.uuid4()` as a token supply whose draws in the run
are distinct — and each id is
`sanitize(category):sanitize(filename):page_label:token`. -/
theorem chunk_ids_unique_within_run (nfkd : List Char → List Char) (ts : String)
    (tok : Nat → String) (chunks : List Chunk) (i j : Nat)
    (hi : i < chunks.length) (hj : j < chunks.length)
    (htok : tok i ≠ tok j)
    (hcat : chunkCat chunks[i] = chunkCat chunks[j])
    (hfn : chunkFn chunks[i] = chunkFn chunks[j])
    (hpg : chunkPg chunks[i] = chunkPg chunks[j]) :
    Option.bind (processChunks nfkd ts tok chunks)[i]?
        (fun c => mdGet? c.metadata "id") = some (chunkIdOf nfkd (tok i) chunks[i]) ∧
    Option.bind (processChunks nfkd ts tok chunks)[j]?
        (fun c => mdGet? c.metadata "id") = some (chunkIdOf nfkd (tok j) chunks[j]) ∧
    chunkIdOf nfkd (tok i) chunks[i] ≠ chunkIdOf nfkd (tok j) chunks[j] := by
  refine ⟨?_, ?_, ?_⟩
  · rw [processChunks, processChunksFrom_getElem?, List.getElem?_eq_getElem hi]
    simp [processChunk_id]
  · rw [processChunks, processChunksFrom_getElem?, List.getElem?_eq_getElem hj]
    simp [processChunk_id]
  · intro heq
    apply htok
    have hstem : idStem nfkd chunks[i] = idStem nfkd chunks[j] := by
      simp only [idStem, hcat, hfn, hpg]
    rw [chunkIdOf, chunkIdOf, hstem] at heq
    exact str_append_left_cancel heq

def exampleTok : Nat → String := fun n => if n = 0 then "aaaa1111" else "bbbb2222"

def exampleChunkA : Chunk :=
  ⟨[("doc_type", "ley"), ("filename", "ley_civil"), ("page_label", "2")], "primer chunk"⟩

def exampleChunkB : Chunk :=
  ⟨[("doc_type", "ley"), ("filename", "ley_civil"), ("page_label", "2")], "segundo chunk"⟩

/-- Witness for C3 at two concrete chunks with identical category, filename
and page label. -/
theorem chunk_ids_unique_within_run_instance :
    Option.bind (processChunks (fun l => l) "2024-01-01" exampleTok
        [exampleChunkA, exampleChunkB])[0]? (fun c => mdGet? c.metadata "id") =
      some (chunkIdOf (fun l => l) (exampleTok 0) exampleChunkA) ∧
    Option.bind (processChunks (fun l => l) "2024-01-01" exampleTok
        [exampleChunkA, exampleChunkB])[1]? (fun c => mdGet? c.metadata "id") =
      some (chunkIdOf (fun l => l) (exampleTok 1) exampleChunkB) ∧
    chunkIdOf (fun l => l) (exampleTok 0) exampleChunkA ≠
      chunkIdOf (fun l => l) (exampleTok 1) exampleChunkB :=
  chunk_ids_unique_within_run (fun l => l) "2024-01-01" exampleTok
    [exampleChunkA, exampleChunkB] 0 1 (by decide) (by decide) (by decide)
    (by decide) (by decide) (by decide)

def exampleChunkC4 : Chunk :=
  ⟨[("doc_type", "ley"), ("filename", "ley_organica"), ("page_label", "4")], "Articulo 1."⟩

/-- C4, counterexample: the composite text carries the Spanish labels
`Tipo:` / `Archivo:` / `Página:`, not the claimed literal
`Type: ... File: ... Page: ...` template. -/
theorem composite_text_english_refuted :
    fullTextOf exampleChunkC4 ≠ "Type: ley. File: ley_organica. Page: 4. Articulo 1." ∧
    (processChunk (fun l => l) "2024-01-01" "abcd1234" exampleChunkC4).page_content ≠
      "Type: ley. File: ley_organica. Page: 4. Articulo 1." := by
  constructor <;> decide

theorem processChunksFrom_texts (nfkd : List Char → List Char) (ts : String)
    (tok : Nat → String) :
    ∀ (l : List Chunk) (i : Nat),
      (processChunksFrom nfkd ts tok i l).map (fun c => mdGetD c.metadata "text" "") =
        l.map fullTextOf
  | [], i => by simp [processChunksFrom]
  | c :: rest, i => by
    simp only [processChunksFrom, List.map_cons]
    rw [processChunksFrom_texts nfkd ts tok rest (i + 1)]
    simp [mdGetD, processChunk_text]

theorem processChunksFrom_contents (nfkd : List Char → List Char) (ts : String)
    (tok : Nat → String) :
    ∀ (l : List Chunk) (i : Nat),
      (processChunksFrom nfkd ts tok i l).map (fun c => c.page_content) =
        l.map fullTextOf
  | [], i => by simp [processChunksFrom]
  | c :: rest, i => by
    simp only [processChunksFrom, List.map_cons]
    rw [processChunksFrom_contents nfkd ts tok rest (i + 1)]
    rfl

/-- C4, amended: for every chunk the composite searchable text is exactly
`Tipo: {category}. Archivo: {filename}. Página: {page}. {chunk content}`;
this composite (not the raw chunk text) is what is stored in the `text`
field and embedded for every record of the run, and the chunk's displayable
`page_content` is replaced by the same composite. -/
theorem composite_text_spanish_template {V : Type} (nfkd : List Char → List Char)
    (ts t : String) (tok : Nat → String) (chunks : List Chunk) (embed : String → V)
    (c : Chunk) :
    fullTextOf c = "Tipo: " ++ chunkCat c ++ ". Archivo: " ++ chunkFn c ++
      ". Página: " ++ chunkPg c ++ ". " ++ c.page_content ∧
    (processChunk nfkd ts t c).page_content = fullTextOf c ∧
    mdGet? (processChunk nfkd ts t c).metadata "text" = some (fullTextOf c) ∧
    upsertTexts (processChunks nfkd ts tok chunks) = chunks.map fullTextOf ∧
    (processChunks nfkd ts tok chunks).map (fun c₂ => c₂.page_content) =
      chunks.map fullTextOf ∧
    (buildRecords embed (processChunks nfkd ts tok chunks)).map (fun r => r.values) =
      (chunks.map fullTextOf).map embed := by
  refine ⟨rfl, rfl, processChunk_text nfkd ts t c, ?_, ?_, ?_⟩
  · exact processChunksFrom_texts nfkd ts tok chunks 0
  · exact processChunksFrom_contents nfkd ts tok chunks 0
  · have h : (processChunks nfkd ts tok chunks).map
        (fun c₂ => mdGetD c₂.metadata "text" "") = chunks.map fullTextOf :=
      processChunksFrom_texts nfkd ts tok chunks 0
    have h₂ : (buildRecords embed (processChunks nfkd ts tok chunks)).map
        (fun r => r.values) =
        ((processChunks nfkd ts tok chunks).map
          (fun c₂ => mdGetD c₂.metadata "text" "")).map embed := by
      rw [buildRecords, List.map_map, List.map_map]
      rfl
    rw [h₂, h]

/-! ## Batched upsert

`add_to_pinecone`, lines 228-233: `for i in range(0, len(vectors_with_ids),
100): index.upsert(vectors=vectors_with_ids[i:i+100])`.  `range` is modelled
by its documented semantics (`start + step*k` for `k` below the step
count), a slice `v[i:i+100]` by `drop`/`take`.  The loop has no `try` and
no retry: a failing call aborts the remaining iterations while previously
issued upserts stand.  That is modelled by `upsertLoop`, whose first
component is the sequence of upsert calls issued and whose second is the
list of batches the index has durably received. -/

/-- Python `range(0, stop, step)` for `step > 0`. -/
def pyRange0 (stop step : Nat) : List Nat :=
  (List.range ((stop + step - 1) / step)).map (fun k => k * step)

/-- The batches sent by the upsert loop, in order. -/
def upsertBatches {α : Type} (records : List α) : List (List α) :=
  (pyRange0 records.length 100).map (fun i => (records.drop i).take 100)

/-- The upsert loop under a success predicate `ok` on batch positions:
issued calls and persisted batches.  A failing call is issued but persists
nothing and stops the loop (the exception propagates). -/
def upsertLoop {α : Type} (ok : Nat → Bool) : Nat → List (List α) → List (List α) × List (List α)
  | _, [] => ([], [])
  | i, b :: rest =>
    if ok i then
      let p := upsertLoop ok (i + 1) rest
      (b :: p.1, b :: p.2)
    else ([b], [])

def runUpserts {α : Type} (ok : Nat → Bool) (batches : List (List α)) :
    List (List α) × List (List α) :=
  upsertLoop ok 0 batches

theorem upsertBatches_cons {α : Type} (l : List α) (hl : l ≠ []) :
    upsertBatches l = l.take 100 :: upsertBatches (l.drop 100) := by
  have hn : 0 < l.length := List.length_pos.mpr hl
  have hceil : (l.length + 99) / 100 = (l.length - 100 + 99) / 100 + 1 := by omega
  unfold upsertBatches pyRange0
  rw [List.length_drop]
  have h₁ : l.length + 100 - 1 = l.length + 99 := by omega
  have h₂ : l.length - 100 + 100 - 1 = l.length - 100 + 99 := by omega
  rw [h₁, h₂, hceil, List.range_succ_eq_map, List.map_cons, List.map_cons,
    List.map_map, List.map_map, List.map_map]
  congr 1
  apply List.map_congr_left
  intro k _
  simp only [Function.comp_apply]
  rw [List.drop_drop]
  congr 2
  omega

theorem upsertBatches_flatten {α : Type} :
    ∀ (n : Nat) (l : List α), l.length ≤ n → (upsertBatches l).flatten = l
  | _, [], _ => by simp [upsertBatches, pyRange0]
  | 0, a :: l, h => by simp at h
  | n + 1, a :: l, h => by
    rw [upsertBatches_cons _ (by simp), List.flatten_cons,
      upsertBatches_flatten n ((a :: l).drop 100)
        (by rw [List.length_drop]; simp at h ⊢; omega)]
    exact List.take_append_drop 100 (a :: l)

theorem upsertLoop_all_ok {α : Type} (ok : Nat → Bool) (hok : ∀ j, ok j = true) :
    ∀ (i : Nat) (l : List (List α)), upsertLoop ok i l = (l, l)
  | _, [] => by simp [upsertLoop]
  | i, b :: rest => by
    simp only [upsertLoop, hok i, if_true, upsertLoop_all_ok ok hok (i + 1) rest]

theorem upsertLoop_fail {α : Type} (ok : Nat → Bool) :
    ∀ (l : List (List α)) (i k : Nat), (∀ j, j < k → ok (i + j) = true) →
      ok (i + k) = false → k < l.length →
      upsertLoop ok i l = (l.take (k + 1), l.take k)
  | [], i, k, _, _, hk => by simp at hk
  | b :: rest, i, 0, _, hfail, _ => by
    simp only [Nat.add_zero] at hfail
    simp [upsertLoop, hfail]
  | b :: rest, i, k + 1, hpre, hfail, hk => by
    have hi : ok i = true := by
      have := hpre 0 (by omega)
      simpa using this
    have hrec := upsertLoop_fail ok rest (i + 1) k
      (fun j hj => by
        have := hpre (j + 1) (by omega)
        rw [← this]
        congr 1
        omega)
      (by rw [← hfail]; congr 1; omega)
      (by simp at hk; omega)
    simp only [upsertLoop, hi, if_true, hrec, List.take_succ_cons]

/-- C5: for `N` prepared records the loop issues exactly `ceil(N/100)`
upsert calls, each batch has at most 100 records, batch `k` is the slice
of records `100k .. min(100(k+1), N) - 1` in order, the concatenation of
all batches is exactly the record list (so the index receives exactly `N`
records), and under a failure at batch `k` the loop issues each batch at
most once (calls = the first `k+1` batches, no retry) while the batches
before the failing one remain received (no rollback). -/
theorem upsert_batching_spec {α : Type} (records : List α) (ok : Nat → Bool) (k : Nat) :
    (upsertBatches records).length = (records.length + 99) / 100 ∧
    (∀ b ∈ upsertBatches records, b.length ≤ 100) ∧
    (∀ k₂ : Nat, k₂ < (records.length + 99) / 100 →
      (upsertBatches records)[k₂]? = some ((records.drop (k₂ * 100)).take 100)) ∧
    (upsertBatches records).flatten = records ∧
    ((∀ j, ok j = true) →
      runUpserts ok (upsertBatches records) =
        (upsertBatches records, upsertBatches records)) ∧
    ((∀ j, j < k → ok j = true) → ok k = false → k < (upsertBatches records).length →
      runUpserts ok (upsertBatches records) =
        ((upsertBatches records).take (k + 1), (upsertBatches records).take k)) := by
  refine ⟨?_, ?_, ?_, ?_, ?_, ?_⟩
  · simp only [upsertBatches, pyRange0, List.length_map, List.length_range]
    omega
  · intro b hb
    rcases List.mem_map.mp hb with ⟨i, _, hi⟩
    rw [← hi, List.length_take]
    omega
  · intro k₂ hk₂
    unfold upsertBatches pyRange0
    rw [List.getElem?_map, List.getElem?_map, List.getElem?_range (by omega)]
    rfl
  · exact upsertBatches_flatten records.length records le_rfl
  · intro hok
    exact upsertLoop_all_ok ok hok 0 (upsertBatches records)
  · intro hpre hfail hk
    exact upsertLoop_fail ok (upsertBatches records) 0 k
      (fun j hj => by simpa using hpre j hj) (by simpa using hfail) hk

/-- Witness for C5: 250 records, a success predicate that fails at the
third batch. -/
theorem upsert_batching_spec_instance :
    (upsertBatches (List.range 250)).length = ((List.range 250).length + 99) / 100 ∧
    (∀ b ∈ upsertBatches (List.range 250), b.length ≤ 100) ∧
    (∀ k₂ : Nat, k₂ < ((List.range 250).length + 99) / 100 →
      (upsertBatches (List.range 250))[k₂]? =
        some (((List.range 250).drop (k₂ * 100)).take 100)) ∧
    (upsertBatches (List.range 250)).flatten = List.range 250 ∧
    ((∀ j, (fun j₂ => decide (j₂ < 2)) j = true) →
      runUpserts (fun j₂ => decide (j₂ < 2)) (upsertBatches (List.range 250)) =
        (upsertBatches (List.range 250), upsertBatches (List.range 250))) ∧
    ((∀ j, j < 2 → (fun j₂ => decide (j₂ < 2)) j = true) →
      (fun j₂ => decide (j₂ < 2)) 2 = false →
      2 < (upsertBatches (List.range 250)).length →
      runUpserts (fun j₂ => decide (j₂ < 2)) (upsertBatches (List.range 250)) =
        ((upsertBatches (List.range 250)).take 3,
          (upsertBatches (List.range 250)).take 2)) :=
  upsert_batching_spec (List.range 250) (fun j₂ => decide (j₂ < 2)) 2

/-! ## Semantic chunking and metadata copies

`split_documents` (populate_database.py, lines 142-164).  The
`SemanticChunker` itself is an external service, embedded as a parameter
`splitter : String → List String` (content in, chunk contents out).  The
claim of interest is about Python object identity — `chunk.metadata =
doc.metadata.copy()` allocates a fresh dict per chunk — so dicts live in an
explicit store (`HeapStore`) and a chunk holds the address of its metadata
dict.  `create_documents` gives each raw chunk a fresh empty-then-assigned
dict; what matters is that the assigned dict of every chunk is a fresh
allocation holding a copy of the document's metadata. -/

abbrev HeapStore := List Metadata

/-- A chunk as an object: its metadata is a reference into the store. -/
structure HChunk where
  mdAddr : Nat
  page_content : String
deriving DecidableEq

/-- Allocate one fresh metadata dict per chunk content, each holding a copy
of the source document's metadata (`doc.metadata.copy()`). -/
def allocChunks (md : Metadata) : List String → HeapStore → List HChunk × HeapStore
  | [], store => ([], store)
  | c :: rest, store =>
    let p := allocChunks md rest (store ++ [md])
    (⟨store.length, c⟩ :: p.1, p.2)

def split_documents (splitter : String → List String) :
    List Doc → HeapStore → List HChunk × HeapStore
  | [], store => ([], store)
  | d :: rest, store =>
    let p₁ := allocChunks d.metadata (splitter d.page_content) store
    let p₂ := split_documents splitter rest p₁.2
    (p₁.1 ++ p₂.1, p₂.2)

/-- The whole of `split_documents`, starting from an empty store. -/
def splitDocuments (splitter : String → List String) (docs : List Doc) :
    List HChunk × HeapStore :=
  split_documents splitter docs []

/-- `chunk.metadata[k] = v` on the chunk whose dict lives at `addr`. -/
def mutateStore (store : HeapStore) (addr : Nat) (k v : String) : HeapStore :=
  store.set addr (mdSet (store.getD addr []) k v)

theorem allocChunks_addrs (md : Metadata) :
    ∀ (contents : List String) (store : HeapStore),
      (allocChunks md contents store).1.map (fun c => c.mdAddr) =
        List.range' store.length contents.length ∧
      (allocChunks md contents store).2 = store ++ List.replicate contents.length md
  | [], store => by simp [allocChunks]
  | c :: rest, store => by
    have ih := allocChunks_addrs md rest (store ++ [md])
    have hlen : (store ++ [md]).length = store.length + 1 := by simp
    refine ⟨?_, ?_⟩
    · show List.length store :: (allocChunks md rest (store ++ [md])).1.map
          (fun c => c.mdAddr) = List.range' store.length ((c :: rest).length)
      rw [ih.1, hlen, List.length_cons, List.range'_succ]
    · show (allocChunks md rest (store ++ [md])).2 =
        store ++ List.replicate ((c :: rest).length) md
      rw [ih.2, List.append_assoc, List.length_cons]
      rfl

theorem range_one_append (s m n : Nat) :
    List.range' s m ++ List.range' (s + m) n = List.range' s (m + n) := by
  have h := List.range'_append s m n 1
  rw [one_mul] at h
  rw [h, Nat.add_comm]

theorem split_documents_spec (splitter : String → List String) :
    ∀ (docs : List Doc) (store : HeapStore),
      (split_documents splitter docs store).1.map (fun c => c.mdAddr) =
        List.range' store.length (split_documents splitter docs store).1.length ∧
      (split_documents splitter docs store).2.length =
        store.length + (split_documents splitter docs store).1.length
  | [], store => by simp [split_documents]
  | d :: rest, store => by
    have ha := allocChunks_addrs d.metadata (splitter d.page_content) store
    have ih := split_documents_spec splitter rest
      (allocChunks d.metadata (splitter d.page_content) store).2
    have hlen : (allocChunks d.metadata (splitter d.page_content) store).2.length =
        store.length + (splitter d.page_content).length := by
      rw [ha.2, List.length_append, List.length_replicate]
    have hcount : (allocChunks d.metadata (splitter d.page_content) store).1.length =
        (splitter d.page_content).length := by
      have h := congrArg List.length ha.1
      simpa using h
    simp only [split_documents, List.map_append, List.length_append]
    constructor
    · rw [ha.1, ih.1, hlen, hcount, range_one_append]
    · rw [ih.2, hlen, hcount]
      omega

theorem splitDocuments_addr (splitter : String → List String) (docs : List Doc)
    (m : Nat) (hm : m < (splitDocuments splitter docs).1.length) :
    ((splitDocuments splitter docs).1.get ⟨m, hm⟩).mdAddr = m := by
  have hspec := (split_documents_spec splitter docs []).1
  have h₁ : ((splitDocuments splitter docs).1.map (fun c => c.mdAddr))[m]? = some m := by
    have h₂ : (splitDocuments splitter docs).1.map (fun c => c.mdAddr) =
        List.range' 0 (splitDocuments splitter docs).1.length := hspec
    rw [h₂, List.getElem?_range' 0 1 hm]
    simp
  rw [List.getElem?_map, List.getElem?_eq_getElem hm] at h₁
  simpa using h₁

/-- C6: two distinct chunks produced by `split_documents` hold their
metadata in distinct freshly allocated dicts, so assigning a top-level
entry of one chunk's metadata map leaves the map read through the other
chunk's reference unchanged. -/
theorem chunk_metadata_isolation (splitter : String → List String) (docs : List Doc)
    (i j : Nat) (hi : i < (splitDocuments splitter docs).1.length)
    (hj : j < (splitDocuments splitter docs).1.length) (hij : i ≠ j) (k v : String) :
    ((splitDocuments splitter docs).1.get ⟨i, hi⟩).mdAddr ≠
      ((splitDocuments splitter docs).1.get ⟨j, hj⟩).mdAddr ∧
    (mutateStore (splitDocuments splitter docs).2
        ((splitDocuments splitter docs).1.get ⟨i, hi⟩).mdAddr k v).getD
        ((splitDocuments splitter docs).1.get ⟨j, hj⟩).mdAddr [] =
      (splitDocuments splitter docs).2.getD
        ((splitDocuments splitter docs).1.get ⟨j, hj⟩).mdAddr [] := by
  rw [splitDocuments_addr splitter docs i hi, splitDocuments_addr splitter docs j hj]
  refine ⟨hij, ?_⟩
  rw [mutateStore]
  simp only [List.getD_eq_getElem?_getD]
  rw [List.getElem?_set_ne hij]

def exampleSplitter : String → List String := fun s => [s, s]

def exampleDocC6 : Doc := ⟨[("source", "data/03_leyes/ley.pdf")], "contenido de la ley"⟩

/-- Witness for C6: a single two-chunk document; mutating the first
chunk's metadata leaves the second chunk's metadata unchanged. -/
theorem chunk_metadata_isolation_instance :
    ((splitDocuments exampleSplitter [exampleDocC6]).1.get ⟨0, by decide⟩).mdAddr ≠
      ((splitDocuments exampleSplitter [exampleDocC6]).1.get ⟨1, by decide⟩).mdAddr ∧
    (mutateStore (splitDocuments exampleSplitter [exampleDocC6]).2
        ((splitDocuments exampleSplitter [exampleDocC6]).1.get ⟨0, by decide⟩).mdAddr
        "id" "nuevo").getD
        ((splitDocuments exampleSplitter [exampleDocC6]).1.get ⟨1, by decide⟩).mdAddr [] =
      (splitDocuments exampleSplitter [exampleDocC6]).2.getD
        ((splitDocuments exampleSplitter [exampleDocC6]).1.get ⟨1, by decide⟩).mdAddr [] :=
  chunk_metadata_isolation exampleSplitter [exampleDocC6] 0 1 (by decide) (by decide)
    (by decide) "id" "nuevo"

/-! ## Existing-files lookup and its error fallback

`get_existing_files` (populate_database.py, lines 98-118): the bounded
dummy query against the index is external; its outcome (`matches` or a
raised error) is the input.  The whole body sits in a `try` whose `except`
logs and returns the empty set.  The second component of the result models
the printed log lines. -/

/-- One iteration of the extraction loop: a match contributes its `source`
value only when its metadata contains both the `filename` key and the
`source` key. -/
def extractStep (acc : Finset String) (md : Metadata) : Finset String :=
  match mdGet? md "filename", mdGet? md "source" with
  | some _, some s => insert s acc
  | _, _ => acc

def extractExisting (ms : List Metadata) : Finset String :=
  ms.foldl extractStep ∅

structure PyErr where
  msg : String
deriving DecidableEq

def get_existing_files (resp : Except PyErr (List Metadata)) : Finset String × List String :=
  match resp with
  | Except.ok ms => (extractExisting ms, [])
  | Except.error e => (∅, ["Error al obtener archivos existentes: " ++ e.msg])

/-- C7: when the dedup lookup raises, `get_existing_files` logs the error
and returns the empty set, so the dedup filter downstream treats every
candidate document as new and ingestion continues; the failure is handled,
not propagated. -/
theorem get_existing_files_error_fallback (e : PyErr) (nf : String → String)
    (doc_type : String) (documents : List Doc) :
    get_existing_files (Except.error e) =
      (∅, ["Error al obtener archivos existentes: " ++ e.msg]) ∧
    load_new_documents nf doc_type (get_existing_files (Except.error e)).1 documents =
      documents.map (tagDoc nf doc_type) := by
  refine ⟨rfl, ?_⟩
  show load_new_documents nf doc_type ∅ documents = documents.map (tagDoc nf doc_type)
  induction documents with
  | nil => simp [load_new_documents]
  | cons d rest ih => simp [load_new_documents, ih]

theorem extractStep_foldl_mem (s : String) :
    ∀ (ms : List Metadata) (acc : Finset String),
      s ∈ ms.foldl extractStep acc ↔
        s ∈ acc ∨ ∃ md ∈ ms, (mdGet? md "filename").isSome ∧
          mdGet? md "source" = some s
  | [], acc => by simp
  | md :: rest, acc => by
    rw [List.foldl_cons, extractStep_foldl_mem s rest (extractStep acc md)]
    rcases h₁ : mdGet? md "filename" with _ | w
    · simp only [extractStep, h₁]
      simp [h₁]
    · rcases h₂ : mdGet? md "source" with _ | s₂
      · simp only [extractStep, h₁, h₂]
        simp [h₁, h₂]
      · simp only [extractStep, h₁, h₂]
        simp [h₁, h₂, Finset.mem_insert]
        tauto

/-- C10: a returned match contributes to the existing-sources set exactly
when its metadata has both the `filename` and the `source` key; a record
with a `source` but no `filename` key contributes nothing, and its source
document passes the dedup filter as if never ingested. -/
theorem extract_existing_requires_both_keys (ms : List Metadata) (s : String)
    (md : Metadata) (hf : mdGet? md "filename" = none)
    (_hs : mdGet? md "source" = some s) (nf : String → String) (doc_type : String)
    (d : Doc) (_hd : docSource d = s) :
    (s ∈ extractExisting ms ↔
      ∃ md₂ ∈ ms, (mdGet? md₂ "filename").isSome ∧
        mdGet? md₂ "source" = some s) ∧
    extractExisting [md] = ∅ ∧
    load_new_documents nf doc_type (extractExisting [md]) [d] =
      [tagDoc nf doc_type d] := by
  have hempty : extractExisting [md] = ∅ := by
    simp only [extractExisting, List.foldl_cons, List.foldl_nil, extractStep, hf]
  refine ⟨?_, hempty, ?_⟩
  · rw [extractExisting, extractStep_foldl_mem s ms ∅]
    simp
  · rw [hempty]
    simp [load_new_documents]

/-- Witness for C10: a match carrying only a `source`. -/
theorem extract_existing_requires_both_keys_instance :
    ("data/03_leyes/ley.pdf" ∈ extractExisting [[("source", "data/03_leyes/ley.pdf")]] ↔
      ∃ md₂ ∈ [[("source", "data/03_leyes/ley.pdf")]],
        (mdGet? md₂ "filename").isSome ∧
          mdGet? md₂ "source" = some "data/03_leyes/ley.pdf") ∧
    extractExisting [[("source", "data/03_leyes/ley.pdf")]] = ∅ ∧
    load_new_documents (fun s => s) "ley"
        (extractExisting [[("source", "data/03_leyes/ley.pdf")]])
        [⟨[("source", "data/03_leyes/ley.pdf")], "texto"⟩] =
      [tagDoc (fun s => s) "ley" ⟨[("source", "data/03_leyes/ley.pdf")], "texto"⟩] :=
  extract_existing_requires_both_keys [[("source", "data/03_leyes/ley.pdf")]]
    "data/03_leyes/ley.pdf" [("source", "data/03_leyes/ley.pdf")] (by decide) (by decide)
    (fun s => s) "ley" ⟨[("source", "data/03_leyes/ley.pdf")], "texto"⟩ (by decide)

/-! ## The chat front end

`handle_question` and `build_sidebar` (app.py).  Streamlit session state
becomes an explicit `SessionState`; the conversation chain is an external
collaborator; the returned event list records, in order, the user-visible
warning and any chain creation/invocation. -/

/-- Python `str.isspace` / `str.strip` whitespace: ASCII whitespace and
separator controls plus the Unicode space characters. -/
def isPyStrSpace (c : Char) : Bool :=
  isPySpace c || c.toNat = 133 || c.toNat = 160 || c.toNat = 5760 ||
    (8192 ≤ c.toNat && c.toNat ≤ 8202) || c.toNat = 8232 || c.toNat = 8233 ||
    c.toNat = 8239 || c.toNat = 8287 || c.toNat = 12288

/-- `not question.strip()`: true iff every character is whitespace (so also
for the empty string). -/
def isBlankQuestion (q : String) : Bool := q.data.all isPyStrSpace

structure SessionState where
  chat_history : List (String × String)
  selected_sources : List String
deriving DecidableEq

inductive UIEvent where
  | warn (msg : String)
  | chainCall (question : String) (sources : List String)
deriving DecidableEq

def handle_question (invokeChain : List String → List (String × String) → String → String)
    (st : SessionState) (question : String) : SessionState × List UIEvent :=
  if isBlankQuestion question then
    (st, [UIEvent.warn "Por favor, ingresa una pregunta válida."])
  else
    ({ st with chat_history :=
        st.chat_history ++
          [("user", question),
           ("bot", invokeChain st.selected_sources st.chat_history question)] },
      [UIEvent.chainCall question st.selected_sources])

/-- C8: a whitespace-only (or empty) question is rejected with the
user-input warning before any chain is created or invoked, and the chat
history is untouched. -/
theorem handle_question_blank_rejected
    (invokeChain : List String → List (String × String) → String → String)
    (st : SessionState) (question : String) (hq : isBlankQuestion question = true) :
    handle_question invokeChain st question =
      (st, [UIEvent.warn "Por favor, ingresa una pregunta válida."]) ∧
    (handle_question invokeChain st question).1.chat_history = st.chat_history ∧
    ∀ e ∈ (handle_question invokeChain st question).2,
      ∀ q₂ ss, e ≠ UIEvent.chainCall q₂ ss := by
  have h : handle_question invokeChain st question =
      (st, [UIEvent.warn "Por favor, ingresa una pregunta válida."]) := by
    simp [handle_question, hq]
  refine ⟨h, by rw [h], ?_⟩
  intro e he q₂ ss
  rw [h] at he
  simp only [List.mem_singleton] at he
  subst he
  simp

/-- Witness for C8 at a three-space question. -/
theorem handle_question_blank_rejected_instance :
    handle_question (fun _ _ _ => "respuesta") ⟨[("user", "hola")], ["todos"]⟩ "   " =
      (⟨[("user", "hola")], ["todos"]⟩,
        [UIEvent.warn "Por favor, ingresa una pregunta válida."]) ∧
    (handle_question (fun _ _ _ => "respuesta")
        ⟨[("user", "hola")], ["todos"]⟩ "   ").1.chat_history = [("user", "hola")] ∧
    ∀ e ∈ (handle_question (fun _ _ _ => "respuesta")
        ⟨[("user", "hola")], ["todos"]⟩ "   ").2,
      ∀ q₂ ss, e ≠ UIEvent.chainCall q₂ ss :=
  handle_question_blank_rejected (fun _ _ _ => "respuesta")
    ⟨[("user", "hola")], ["todos"]⟩ "   " (by decide)

/-- `os.path.join("data", folder, doc)` with backslashes normalized to
forward slashes. -/
def mkDocPath (folder doc : String) : String :=
  String.mk (("data/" ++ folder ++ "/" ++ doc).data.map
    (fun c => if c = '\\' then '/' else c))

/-- The flattened per-folder multiselect result, in display order. -/
def selectedDocsOf (sels : List (String × List String)) : List String :=
  sels.foldr (fun p acc => p.2.map (mkDocPath p.1) ++ acc) []

/-- `build_sidebar` (app.py, lines 101-131): `select_all` is the
all-documents checkbox, `sels` the per-folder multiselect choices (only
consulted when the checkbox is off).  Returns the new
`selected_sources`. -/
def build_sidebar (select_all : Bool) (sels : List (String × List String)) :
    List String :=
  let selected_docs := if select_all then [] else selectedDocsOf sels
  if select_all || selected_docs.isEmpty then ["todos"] else selected_docs

/-- C9: after `build_sidebar` the active source filter is never empty — it
is the sentinel `["todos"]` (when the all-documents box is checked, or when
every document was deselected) or the non-empty explicit selection. -/
theorem build_sidebar_filter_nonempty (select_all : Bool)
    (sels : List (String × List String)) :
    build_sidebar select_all sels ≠ [] ∧
    (select_all = true → build_sidebar select_all sels = ["todos"]) ∧
    (selectedDocsOf sels = [] → build_sidebar select_all sels = ["todos"]) ∧
    (build_sidebar select_all sels = ["todos"] ∨
      (build_sidebar select_all sels = selectedDocsOf sels ∧
        selectedDocsOf sels ≠ [])) := by
  cases select_all with
  | true => simp [build_sidebar]
  | false =>
    by_cases h : selectedDocsOf sels = []
    · simp [build_sidebar, h]
    · simp [build_sidebar, h, List.isEmpty_iff]

/-- Witness for C9: one folder with one selected document, checkbox off. -/
theorem build_sidebar_filter_nonempty_instance :
    build_sidebar false [("03_leyes", ["ley.pdf"])] ≠ [] ∧
    (false = true → build_sidebar false [("03_leyes", ["ley.pdf"])] = ["todos"]) ∧
    (selectedDocsOf [("03_leyes", ["ley.pdf"])] = [] →
      build_sidebar false [("03_leyes", ["ley.pdf"])] = ["todos"]) ∧
    (build_sidebar false [("03_leyes", ["ley.pdf"])] = ["todos"] ∨
      (build_sidebar false [("03_leyes", ["ley.pdf"])] =
          selectedDocsOf [("03_leyes", ["ley.pdf"])] ∧
        selectedDocsOf [("03_leyes", ["ley.pdf"])] ≠ [])) :=
  build_sidebar_filter_nonempty false [("03_leyes", ["ley.pdf"])]

end RagLegislacion
